import Mathlib

/-!
Verification of the dzlab/search-engine repository (Go).

This file gives a shallow embedding, in Lean 4, of the parts of the source
needed to settle the frozen claims: the Broker read path
(src/broker/broker.go: shard routing, fan-out, merge and de-duplication),
the Indexer commit path (src/indexer/indexer.go: the lock-protected
CommitAndUpload; src/indexer/storage.go: the retried per-file S3 upload),
the query-understanding configuration validator
(src/query_understanding/config/config_loader.go), and the query stages
(src/query_understanding/processing/stages.go).

Modelling conventions:
  - Go machine integers (int, 64-bit) are Int with explicit wrapping
    modulo 2^64 where overflow can occur (the broker hash).
  - Fallible Go functions returning (T, error) become Except String T.
  - Goroutine nondeterminism in Broker.Search is modelled by quantifying
    over the order (a permutation) in which successful searcher batches
    are appended to the shared slice, and by treating the iteration order
    of a Go map as an arbitrary enumeration (a list) of its entries.
  - Filesystem effects of CommitAndUpload are an explicit state record:
    whether the lock file exists, and the list of performed
    UploadSegment invocations.
  - SearchResult.Score (float64) plays no role in any claim (identity is
    by ID alone) and is omitted from the record.
-/

namespace SearchEngine

/-! ## Broker data model (src/broker/broker.go) -/

/-- Model of `SearchResult` from broker.go (ID, Title, URL; Score is float64 and
plays no role in merging, identity is by `ID` alone). -/
structure SearchResult where
  id : String
  title : String
  url : String
deriving DecidableEq, Repr

/-- Model of `StructuredQuery` from broker.go: keyword list plus string filters. -/
structure StructuredQuery where
  keywords : List String
  filters : List (String × String)
deriving DecidableEq, Repr

deriving instance DecidableEq for Except

/-- Outcome of one `Searcher.Search` call for the query under
consideration: a batch of results, or an error. -/
abbrev SearcherOutcome := Except String (List SearchResult)

/-- The Broker field `searchersByShard` (a Go `map[int][]Searcher`),
with each searcher replaced by its outcome for the one query being
modelled. The list order is the (arbitrary, unspecified) order in which
a Go `range` over the map enumerates its keys; keys are distinct. -/
abbrev ShardMap := List (Int × List SearcherOutcome)

/-- Keys of the shard map in enumeration order: the slice
`availableShardIDs` built by `for shardID := range b.searchersByShard`. -/
def availableIDs (m : ShardMap) : List Int := m.map Prod.fst

/-! ### The routing hash (broker.go lines 97-104) -/

/-- Wrap an integer into the signed 64-bit range, as Go `int` arithmetic
does on overflow. -/
def int64wrap (x : Int) : Int := (x + 2 ^ 63) % 2 ^ 64 - 2 ^ 63

/-- One step of the loop `hash = hash*31 + int(r)` over the runes of the
first keyword, with 64-bit wraparound. -/
def goHashStep (h : Int) (c : Char) : Int := int64wrap (h * 31 + (c.toNat : Int))

/-- The broker routing hash: `hash := 0; for _, r := range keyword
hash = hash*31 + int(r); if hash < 0, hash = -hash`. The final
negation also wraps (in Go, `-minInt64` is `minInt64`). -/
def goHash (s : String) : Int :=
  let h := s.data.foldl goHashStep 0
  if h < 0 then int64wrap (-h) else h

/-- Shard-selection portion of `Broker.Search` (broker.go lines 84-115):
with no keywords, broadcast to every enumerated shard id; otherwise, if
any shard exists, pick the single shard at index `hash % len` (Go `%` on
int is truncated division, `Int.tmod`), and with no shards fail with the
error `no searchers available`. A negative index (possible only when the
hash is `minInt64`) would make Go panic; the model returns a dedicated
error for that unreachable-in-practice branch. -/
def computeTargetShards (sq : StructuredQuery) (availableShardIDs : List Int) :
    Except String (List Int) :=
  match sq.keywords with
  | [] => .ok availableShardIDs
  | firstKeyword :: _ =>
    if availableShardIDs.length ≠ 0 then
      let i := (goHash firstKeyword).tmod (availableShardIDs.length : Int)
      if hi : 0 ≤ i ∧ i.toNat < availableShardIDs.length then
        .ok [availableShardIDs.get ⟨i.toNat, hi.2⟩]
      else
        .error "runtime panic: index out of range"
    else
      .error "no searchers available"

/-! ### Fan-out and merge (broker.go lines 117-176) -/

/-- The searcher outcomes dispatched by `Broker.Search`: for each target
shard id, every searcher replica registered under that id (empty when
routing failed, since nothing is dispatched then). -/
def dispatchedOutcomes (sq : StructuredQuery) (m : ShardMap) : List SearcherOutcome :=
  match computeTargetShards sq (availableIDs m) with
  | .error _ => []
  | .ok targets => targets.flatMap (fun sid => (m.lookup sid).getD [])

/-- The result batches of the dispatched searchers that succeeded; an
erroring searcher contributes nothing to `allResults` (its error goes to
`errChan` and is only logged). -/
def successBatches (outs : List SearcherOutcome) : List (List SearchResult) :=
  outs.filterMap fun o => match o with
    | .ok rs => some rs
    | .error _ => none

/-- Boolean success test for a searcher outcome. -/
def outcomeOk : SearcherOutcome → Bool
  | .ok _ => true
  | .error _ => false

/-- De-duplication loop of `Broker.Search` (broker.go lines 158-168):
walk `allResults` keeping a result only when its ID was not seen
before. `seen` models the `seenIDs` map. -/
def dedupAux (seen : List String) : List SearchResult → List SearchResult
  | [] => []
  | r :: rest =>
    if r.id ∈ seen then dedupAux seen rest
    else r :: dedupAux (r.id :: seen) rest

/-- Merging step of `Broker.Search`: de-duplicate the concatenated results by ID,
first occurrence wins. -/
def dedupResults (rs : List SearchResult) : List SearchResult := dedupAux [] rs

/-- Model of `Broker.Search`, with the nondeterministic append order of the
successful batches exposed as the `arrival` argument (the goroutines
append whole batches under a mutex, in an order the scheduler picks;
theorems constrain `arrival` to be a permutation of the successful
dispatched batches). Failures of individual searchers are only logged;
they do not affect the returned value. -/
def brokerSearchArrival (qu : Except String StructuredQuery) (m : ShardMap)
    (arrival : List (List SearchResult)) : Except String (List SearchResult) :=
  match qu with
  | .error e => .error e
  | .ok sq =>
    match computeTargetShards sq (availableIDs m) with
    | .error e => .error e
    | .ok _ => .ok (dedupResults arrival.flatten)

/-- Model of `Broker.Search` under the one schedule in which batches arrive in
dispatch order (used for concrete, closed evaluations). -/
def brokerSearch (qu : Except String StructuredQuery) (m : ShardMap) :
    Except String (List SearchResult) :=
  match qu with
  | .error e => .error e
  | .ok sq => brokerSearchArrival (.ok sq) m (successBatches (dispatchedOutcomes sq m))

/-! ### Properties of the merge/de-duplication step -/

theorem dedupAux_sublist (seen : List String) (rs : List SearchResult) :
    (dedupAux seen rs).Sublist rs := by
  induction rs generalizing seen with
  | nil => simp [dedupAux]
  | cons r rest ih =>
    by_cases h : r.id ∈ seen
    · simpa [dedupAux, h] using (ih seen).cons r
    · simpa [dedupAux, h] using (ih (r.id :: seen)).cons₂ r

theorem dedupAux_id_notin_seen (rs : List SearchResult) (seen : List String)
    (r : SearchResult) (hr : r ∈ dedupAux seen rs) : r.id ∉ seen := by
  induction rs generalizing seen with
  | nil => simp [dedupAux] at hr
  | cons a rest ih =>
    by_cases h : a.id ∈ seen
    · simp only [dedupAux, if_pos h] at hr
      exact ih seen hr
    · simp only [dedupAux, if_neg h, List.mem_cons] at hr
      rcases hr with rfl | hr
      · exact h
      · have := ih (a.id :: seen) hr
        exact fun hc => this (List.mem_cons_of_mem _ hc)

theorem dedupAux_nodup (rs : List SearchResult) (seen : List String) :
    ((dedupAux seen rs).map SearchResult.id).Nodup := by
  induction rs generalizing seen with
  | nil => simp [dedupAux]
  | cons a rest ih =>
    by_cases h : a.id ∈ seen
    · simpa [dedupAux, h] using ih seen
    · simp only [dedupAux, if_neg h, List.map_cons, List.nodup_cons]
      refine ⟨?_, ih (a.id :: seen)⟩
      intro hmem
      rcases List.mem_map.mp hmem with ⟨r, hr, hid⟩
      exact dedupAux_id_notin_seen rest (a.id :: seen) r hr (hid ▸ List.mem_cons_self _ _)

theorem dedupAux_mem_id (rs : List SearchResult) (seen : List String) (x : String) :
    x ∈ (dedupAux seen rs).map SearchResult.id ↔
      x ∈ rs.map SearchResult.id ∧ x ∉ seen := by
  induction rs generalizing seen with
  | nil => simp [dedupAux]
  | cons a rest ih =>
    by_cases h : a.id ∈ seen
    · rw [dedupAux, if_pos h, ih seen]
      simp only [List.map_cons, List.mem_cons]
      by_cases hxa : x = a.id
      · subst hxa
        simp [h]
      · simp [hxa]
    · rw [dedupAux, if_neg h]
      simp only [List.map_cons, List.mem_cons, ih (a.id :: seen)]
      by_cases hxa : x = a.id
      · subst hxa
        simp [h]
      · simp [hxa]

theorem dedupAux_first_occurrence (rs : List SearchResult) (seen : List String)
    (r : SearchResult) (hr : r ∈ dedupAux seen rs) :
    rs.find? (fun x => x.id == r.id) = some r := by
  induction rs generalizing seen with
  | nil => simp [dedupAux] at hr
  | cons a rest ih =>
    have hrid : r.id ∉ seen := dedupAux_id_notin_seen _ _ _ hr
    by_cases h : a.id ∈ seen
    · simp only [dedupAux, if_pos h] at hr
      have hne : (a.id == r.id) = false := by
        simp only [beq_eq_false_iff_ne, ne_eq]
        intro hc
        exact hrid (hc ▸ h)
      simp only [List.find?, hne]
      exact ih seen hr
    · simp only [dedupAux, if_neg h, List.mem_cons] at hr
      rcases hr with rfl | hr
      · simp [List.find?]
      · have hrid' : r.id ∉ a.id :: seen := dedupAux_id_notin_seen _ _ _ hr
        have hne : (a.id == r.id) = false := by
          simp only [beq_eq_false_iff_ne, ne_eq]
          intro hc
          exact hrid' (hc ▸ List.mem_cons_self _ _)
        simp only [List.find?, hne]
        exact ih (a.id :: seen) hr

/-- C2. For every list of per-Searcher result batches gathered by
`Broker.Search`, the merged output (`dedupResults` of their
concatenation, broker.go lines 158-175) (a) is a subsequence of the
concatenated input, so the relative order of retained elements is
preserved, (b) carries no duplicate ID, (c) carries exactly the IDs
occurring in the input, and (d) each retained element is the first
occurrence of its ID in concatenation order. -/
theorem broker_merge_dedup_spec (batches : List (List SearchResult)) :
    (dedupResults batches.flatten).Sublist batches.flatten ∧
    ((dedupResults batches.flatten).map SearchResult.id).Nodup ∧
    (∀ x, x ∈ (dedupResults batches.flatten).map SearchResult.id ↔
      x ∈ batches.flatten.map SearchResult.id) ∧
    (∀ r ∈ dedupResults batches.flatten,
      batches.flatten.find? (fun x => x.id == r.id) = some r) := by
  refine ⟨dedupAux_sublist [] _, dedupAux_nodup _ [], fun x => ?_, fun r hr => ?_⟩
  · rw [dedupResults, dedupAux_mem_id]
    simp
  · exact dedupAux_first_occurrence _ [] r hr

/-- Witness for C2: the merge theorem applied to the concrete
de-duplication scenario of the spec (searcher one returns ids a, b, c;
searcher two returns b with a different payload, then d): the first
occurrence of id b is the one kept. -/
theorem broker_merge_dedup_spec_witness :
    ([[⟨"a","A","ua"⟩, ⟨"b","B","ub"⟩, ⟨"c","C","uc"⟩],
      [⟨"b","dup","ub2"⟩, ⟨"d","D","ud"⟩]] : List (List SearchResult)).flatten.find?
        (fun x => x.id == (⟨"b","B","ub"⟩ : SearchResult).id) =
      some ⟨"b","B","ub"⟩ :=
  (broker_merge_dedup_spec
      ([[⟨"a","A","ua"⟩, ⟨"b","B","ub"⟩, ⟨"c","C","uc"⟩],
        [⟨"b","dup","ub2"⟩, ⟨"d","D","ud"⟩]] : List (List SearchResult))).2.2.2
    ⟨"b","B","ub"⟩ (by decide)

/-! ### Shard routing (C1) -/

/-- C1 (amended). With at least one shard and a non-empty first keyword,
`Broker.Search` selects exactly one target shard: the element at index
`goHash k mod |ids|` of the shard ids **in the order the Go map
enumeration yields them** — not in sorted order, which broker.go never
establishes. Selection is a pure function of the first keyword and that
enumeration list (`computeTargetShards` is a function), but not of the
sorted id set, because Go map iteration order is unspecified. -/
theorem computeTargetShards_single (k : String) (rest : List String)
    (filters : List (String × String)) (ids : List Int)
    (hids : ids ≠ []) (_hk : k ≠ "") (hh : 0 ≤ goHash k) :
    ∃ s, ids.get? ((goHash k).tmod (ids.length : Int)).toNat = some s ∧
      computeTargetShards ⟨k :: rest, filters⟩ ids = .ok [s] := by
  have hlen : ids.length ≠ 0 := fun h => hids (List.length_eq_zero.mp h)
  have hpos : (0 : Int) < (ids.length : Int) := by
    exact_mod_cast Nat.pos_of_ne_zero hlen
  have hi0 : 0 ≤ (goHash k).tmod (ids.length : Int) := Int.tmod_nonneg _ hh
  have hilt : (goHash k).tmod (ids.length : Int) < (ids.length : Int) :=
    Int.tmod_lt_of_pos _ hpos
  have hlt : ((goHash k).tmod (ids.length : Int)).toNat < ids.length := by omega
  refine ⟨ids.get ⟨((goHash k).tmod (ids.length : Int)).toNat, hlt⟩,
    List.get?_eq_get hlt, ?_⟩
  simp only [computeTargetShards]
  rw [if_pos hlen, dif_pos ⟨hi0, hlt⟩]

/-- Witness for C1 (amended): keyword `a` (hash 97) over the two-shard
enumeration `[0, 1]` selects the single shard `97 mod 2 = 1`. -/
theorem computeTargetShards_single_witness :
    ∃ s, ([0, 1] : List Int).get?
        ((goHash "a").tmod (([0, 1] : List Int).length : Int)).toNat = some s ∧
      computeTargetShards ⟨["a"], []⟩ [0, 1] = .ok [s] :=
  computeTargetShards_single "a" [] [] [0, 1] (by decide) (by decide) (by decide)

/-- Counterexample for C1 as stated. The code enumerates the shard ids
with `for shardID := range b.searchersByShard` (broker.go line 88),
whose order Go leaves unspecified — it never sorts. The two lists
`[0, 1]` and `[1, 0]` are enumerations of the same ShardMap key set
(they are permutations of one another), yet keyword `a` selects shard 1
under one enumeration and shard 0 under the other; so the selection is
not a pure function of the first keyword and the **sorted** shard ids,
and two runs of the same inputs need not select the same shard. -/
theorem computeTargetShards_order_dependent_cx :
    computeTargetShards ⟨["a"], []⟩ [0, 1] = .ok [1] ∧
    computeTargetShards ⟨["a"], []⟩ [1, 0] = .ok [0] ∧
    ([1, 0] : List Int).Perm [0, 1] ∧ (1 : Int) ≠ 0 := by
  decide

/-! ### Failure policy of the fan-out (C3, C4, C5) -/

theorem dispatched_ne_nil_targets_ok (sq : StructuredQuery) (m : ShardMap)
    (h : dispatchedOutcomes sq m ≠ []) :
    ∃ ts, computeTargetShards sq (availableIDs m) = .ok ts := by
  unfold dispatchedOutcomes at h
  cases hc : computeTargetShards sq (availableIDs m) with
  | error e => rw [hc] at h; exact absurd rfl h
  | ok ts => exact ⟨ts, rfl⟩

theorem successBatches_nil_of_all_fail (outs : List SearcherOutcome)
    (h : ∀ o ∈ outs, outcomeOk o = false) : successBatches outs = [] := by
  induction outs with
  | nil => rfl
  | cons o rest ih =>
    cases o with
    | ok rs => simpa [outcomeOk] using h _ (List.mem_cons_self _ _)
    | error e =>
      simp only [successBatches, List.filterMap_cons]
      exact ih fun x hx => h x (List.mem_cons_of_mem _ hx)

/-- C3 (amended). When query understanding succeeds, at least one
searcher is dispatched, and every dispatched searcher errors,
`Broker.Search` does **not** return an aggregated error: it logs one of
the errors (broker.go lines 149-156) and returns the empty result list
with a nil error, whatever order the (non-existent) successful batches
arrived in. -/
theorem brokerSearch_allFail_ok_empty (sq : StructuredQuery) (m : ShardMap)
    (arrival : List (List SearchResult))
    (hne : dispatchedOutcomes sq m ≠ [])
    (hall : ∀ o ∈ dispatchedOutcomes sq m, outcomeOk o = false)
    (harr : arrival.Perm (successBatches (dispatchedOutcomes sq m))) :
    brokerSearchArrival (.ok sq) m arrival = .ok [] := by
  obtain ⟨ts, hts⟩ := dispatched_ne_nil_targets_ok sq m hne
  have hsb : successBatches (dispatchedOutcomes sq m) = [] :=
    successBatches_nil_of_all_fail _ hall
  have harr' : arrival = [] := List.Perm.eq_nil (hsb ▸ harr)
  subst harr'
  simp [brokerSearchArrival, hts, dedupResults, dedupAux]

/-- Witness for C3 (amended): one shard whose single searcher errors. -/
theorem brokerSearch_allFail_ok_empty_witness :
    brokerSearchArrival (.ok ⟨["a"], []⟩)
        [((0 : Int), [(Except.error "searcher failed" : SearcherOutcome)])] [] =
      .ok [] :=
  brokerSearch_allFail_ok_empty ⟨["a"], []⟩
    [((0 : Int), [(Except.error "searcher failed" : SearcherOutcome)])] []
    (by decide) (by decide) (by decide)

/-- Counterexample for C3 as stated. Concrete request: QU succeeds with
keywords `["a"]`, the single shard 0 is targeted, its one searcher is
dispatched and errors — yet `Broker.Search` returns `.ok []`, a
successful (empty) result list, not an `AllShardsFailed` error
(broker.go lines 148-156 only log searcher errors and fall through to
the merge). -/
theorem brokerSearch_allFail_cx :
    dispatchedOutcomes ⟨["a"], []⟩ [((0 : Int), [Except.error "searcher failed"])] =
      [Except.error "searcher failed"] ∧
    brokerSearch (.ok ⟨["a"], []⟩) [((0 : Int), [Except.error "searcher failed"])] =
      .ok [] := by
  decide

/-- C4. Partial failure: when at least one dispatched searcher succeeds
and at least one errors, `Broker.Search` reports success — it returns
`.ok` of the de-duplicated gathered batches; every returned result comes
from some successful batch, every result of a successful batch has its
ID represented in the output, and the failures are only logged (they do
not appear in the returned value). -/
theorem brokerSearch_partialFailure_ok (sq : StructuredQuery) (m : ShardMap)
    (arrival : List (List SearchResult))
    (hok : ∃ o ∈ dispatchedOutcomes sq m, outcomeOk o = true)
    (_herr : ∃ o ∈ dispatchedOutcomes sq m, outcomeOk o = false)
    (harr : arrival.Perm (successBatches (dispatchedOutcomes sq m))) :
    ∃ out, brokerSearchArrival (.ok sq) m arrival = .ok out ∧
      (∀ r ∈ out, ∃ b ∈ successBatches (dispatchedOutcomes sq m), r ∈ b) ∧
      (∀ b ∈ successBatches (dispatchedOutcomes sq m), ∀ r ∈ b,
        r.id ∈ out.map SearchResult.id) := by
  have hne : dispatchedOutcomes sq m ≠ [] := by
    rintro hnil
    obtain ⟨o, ho, _⟩ := hok
    rw [hnil] at ho
    exact (List.not_mem_nil o) ho
  obtain ⟨ts, hts⟩ := dispatched_ne_nil_targets_ok sq m hne
  refine ⟨dedupResults arrival.flatten, ?_, ?_, ?_⟩
  · simp [brokerSearchArrival, hts]
  · intro r hr
    have hmem : r ∈ arrival.flatten :=
      (dedupAux_sublist [] arrival.flatten).mem hr
    obtain ⟨b, hb, hrb⟩ := List.mem_flatten.mp hmem
    exact ⟨b, harr.mem_iff.mp hb, hrb⟩
  · intro b hb r hr
    have hbarr : b ∈ arrival := harr.mem_iff.mpr hb
    have hmem : r ∈ arrival.flatten := List.mem_flatten.mpr ⟨b, hbarr, hr⟩
    rw [dedupResults, dedupAux_mem_id]
    exact ⟨List.mem_map_of_mem _ hmem, List.not_mem_nil _⟩

/-- Witness for C4: shard 0 has a failing replica and a succeeding one
returning id `ok`; the broker returns `.ok` with that batch. -/
theorem brokerSearch_partialFailure_ok_witness :
    ∃ out, brokerSearchArrival (.ok ⟨["a"], []⟩)
        [((0 : Int), [Except.error "searcher failed",
                      Except.ok [(⟨"ok","OK","u"⟩ : SearchResult)]])]
        [[⟨"ok","OK","u"⟩]] = .ok out ∧
      (∀ r ∈ out, ∃ b ∈ successBatches (dispatchedOutcomes ⟨["a"], []⟩
          [((0 : Int), [Except.error "searcher failed",
                        Except.ok [(⟨"ok","OK","u"⟩ : SearchResult)]])]), r ∈ b) ∧
      (∀ b ∈ successBatches (dispatchedOutcomes ⟨["a"], []⟩
          [((0 : Int), [Except.error "searcher failed",
                        Except.ok [(⟨"ok","OK","u"⟩ : SearchResult)]])]),
        ∀ r ∈ b, r.id ∈ out.map SearchResult.id) :=
  brokerSearch_partialFailure_ok ⟨["a"], []⟩
    [((0 : Int), [Except.error "searcher failed",
                  Except.ok [(⟨"ok","OK","u"⟩ : SearchResult)]])]
    [[⟨"ok","OK","u"⟩]] (by decide) (by decide) (by decide)

/-- C5 (amended). With zero keywords the query is broadcast: the target
shard list is exactly the enumerated key list of the ShardMap (broker.go
lines 109-115). But with zero keywords **and** an empty ShardMap the
code does not fail with a NoShards error: no searcher is dispatched and
`Broker.Search` returns the empty list with a nil error (the
`no searchers available` error exists only on the keyword branch,
broker.go lines 105-108). -/
theorem brokerSearch_broadcast_spec (sq : StructuredQuery) (m : ShardMap)
    (hk : sq.keywords = []) :
    computeTargetShards sq (availableIDs m) = .ok (availableIDs m) ∧
    (m = [] → brokerSearch (.ok sq) m = .ok []) := by
  constructor
  · unfold computeTargetShards
    rw [hk]
  · rintro rfl
    cases sq with
    | mk kw fl =>
      cases hk
      rfl

/-- Witness for C5 (amended): the empty structured query over the empty
ShardMap yields a successful empty response. -/
theorem brokerSearch_broadcast_spec_witness :
    computeTargetShards ⟨[], []⟩ (availableIDs []) = .ok (availableIDs []) ∧
    brokerSearch (.ok ⟨[], []⟩) [] = .ok [] :=
  ⟨(brokerSearch_broadcast_spec ⟨[], []⟩ [] rfl).1,
   (brokerSearch_broadcast_spec ⟨[], []⟩ [] rfl).2 rfl⟩

/-- Counterexample for C5 as stated: a structured query with zero
keywords over an empty ShardMap makes `Broker.Search` return a
successful empty result (`.ok []`), not a `NoShards` error. -/
theorem brokerSearch_emptyBroadcast_cx :
    brokerSearch (.ok ⟨[], []⟩) ([] : ShardMap) = .ok [] := by
  decide

/-! ## Indexer commit path (src/indexer/indexer.go lines 236-276) -/

/-- Observable filesystem/storage state of one Indexer: whether the
commit lock file `.indexer.lock` exists in the index parent directory,
and the log of `UploadSegment` invocations (each recorded by the segment
path it was given), standing in for the Segment Store contents. -/
structure IndexerFsState where
  lockExists : Bool
  uploads : List String
deriving DecidableEq, Repr

/-- Model of `Indexer.CommitAndUpload`: try to create the lock file with
`os.OpenFile(lockFilePath, O_CREATE|O_EXCL|O_WRONLY, 0644)` — an atomic
exclusive create. If the file already exists the operation fails with
the `IndexLocked` error and nothing else happens. Otherwise the lock is
held, `storage.UploadSegment(indexPath)` runs once (its outcome is the
`uploadOutcome` argument), and the deferred cleanup closes and removes
the lock file on both the success and the error exit path. -/
def commitAndUpload (st : IndexerFsState) (indexPath : String)
    (uploadOutcome : Except String Unit) : Except String Unit × IndexerFsState :=
  if st.lockExists then
    (.error "index is locked, another upload may be in progress", st)
  else
    match uploadOutcome with
    | .error e =>
      (.error ("failed to upload index segment: " ++ e),
       { lockExists := false, uploads := st.uploads ++ [indexPath] })
    | .ok _ =>
      (.ok (), { lockExists := false, uploads := st.uploads ++ [indexPath] })

/-- C6. If the commit lock file already exists, `CommitAndUpload` fails
with the `IndexLocked` error and the state is unchanged — in particular
`UploadSegment` is never invoked, so the Segment Store is untouched.
And whenever the lock is successfully acquired (it did not exist), the
deferred cleanup removes it on every exit path: the final state has no
lock file, whatever the upload outcome. -/
theorem commitAndUpload_lock_spec (st : IndexerFsState) (indexPath : String)
    (uploadOutcome : Except String Unit) :
    (st.lockExists = true →
      commitAndUpload st indexPath uploadOutcome =
        (.error "index is locked, another upload may be in progress", st)) ∧
    (st.lockExists = false →
      (commitAndUpload st indexPath uploadOutcome).2.lockExists = false ∧
      (commitAndUpload st indexPath uploadOutcome).2.uploads =
        st.uploads ++ [indexPath]) := by
  constructor
  · intro h
    simp [commitAndUpload, h]
  · intro h
    cases uploadOutcome with
    | ok u => simp [commitAndUpload, h]
    | error e => simp [commitAndUpload, h]

/-- Witness for C6: with the lock file present, the commit is refused
with `IndexLocked` and the upload log is untouched; with it absent, the
lock is gone again after a failing upload. -/
theorem commitAndUpload_lock_spec_witness :
    commitAndUpload ⟨true, []⟩ "idx" (.ok ()) =
      (.error "index is locked, another upload may be in progress", ⟨true, []⟩) ∧
    (commitAndUpload ⟨false, []⟩ "idx" (.error "net")).2.lockExists = false :=
  ⟨(commitAndUpload_lock_spec ⟨true, []⟩ "idx" (.ok ())).1 rfl,
   ((commitAndUpload_lock_spec ⟨false, []⟩ "idx" (.error "net")).2 rfl).1⟩

/-! ## Per-file S3 upload retry (src/indexer/storage.go lines 162-166, 262-298) -/

/-- Constant `maxS3UploadRetries = 3` (storage.go line 163). -/
def maxS3UploadRetries : Nat := 3

/-- Constant `initialS3Backoff = 1 * time.Second` (storage.go line 164),
in seconds. -/
def initialS3BackoffSec : Nat := 1

/-- Constant `maxS3Backoff = 8 * time.Second` (storage.go line 165), in seconds. -/
def maxS3BackoffSec : Nat := 8

/-- The backoff slept after failed attempt number `attempt` (0-based):
`time.Duration(1<<attempt) * initialS3Backoff`, capped at
`maxS3Backoff` (storage.go lines 284-287). In seconds. -/
def backoffFor (attempt : Nat) : Nat :=
  min (2 ^ attempt * initialS3BackoffSec) maxS3BackoffSec

/-- The retry loop of `S3Storage.UploadSegment` for one file (storage.go
lines 262-291). `outcome n` is what the n-th upload attempt would
return (`none` = success, `some e` = error e). Each iteration first
seeks the file back to offset zero, then attempts the upload; on success
it breaks, on failure it sleeps `backoffFor attempt` unless this was the
final attempt. Returns the final `uploadErr` together with the number
of seek-to-zero operations performed (one per attempt made) and the list
of sleeps performed, in order. -/
def s3RetryAux (outcome : Nat → Option String) :
    Nat → Nat → Option String → Option String × Nat × List Nat
  | _, 0, lastErr => (lastErr, 0, [])
  | attempt, remaining + 1, _ =>
    match outcome attempt with
    | none => (none, 1, [])
    | some e =>
      let r := s3RetryAux outcome (attempt + 1) remaining (some e)
      if remaining = 0 then (r.1, r.2.1 + 1, r.2.2)
      else (r.1, r.2.1 + 1, backoffFor attempt :: r.2.2)

/-- Upload of one file with up to `maxS3UploadRetries` attempts. -/
def s3UploadFileRetry (outcome : Nat → Option String) :
    Option String × Nat × List Nat :=
  s3RetryAux outcome 0 maxS3UploadRetries none

/-- The walk of `S3Storage.UploadSegment` over the segment files: each
file is uploaded with the retry loop; the first file whose retries are
exhausted aborts the walk, and its error (wrapped) fails the whole
upload — hence the whole commit. -/
def s3UploadFiles : List (Nat → Option String) → Except String Unit
  | [] => .ok ()
  | f :: fs =>
    match (s3UploadFileRetry f).1 with
    | some e => .error ("failed to upload file to S3 after 3 attempts: " ++ e)
    | none => s3UploadFiles fs

theorem s3RetryAux_seeks_le (outcome : Nat → Option String) (attempt remaining : Nat)
    (lastErr : Option String) :
    (s3RetryAux outcome attempt remaining lastErr).2.1 ≤ remaining := by
  induction remaining generalizing attempt lastErr with
  | zero => simp [s3RetryAux]
  | succ r ih =>
    cases h : outcome attempt with
    | none => simp [s3RetryAux, h]
    | some e =>
      have h2 := ih (attempt + 1) (some e)
      simp only [s3RetryAux, h]
      split
      · simpa using Nat.succ_le_succ h2
      · simpa using Nat.succ_le_succ h2

theorem s3UploadFileRetry_all_fail (outcome : Nat → Option String)
    (hall : ∀ k, k < maxS3UploadRetries → outcome k ≠ none) :
    ∃ e, s3UploadFileRetry outcome =
      (some e, maxS3UploadRetries, [backoffFor 0, backoffFor 1]) := by
  obtain ⟨e0, h0⟩ := Option.ne_none_iff_exists'.mp (hall 0 (by decide))
  obtain ⟨e1, h1⟩ := Option.ne_none_iff_exists'.mp (hall 1 (by decide))
  obtain ⟨e2, h2⟩ := Option.ne_none_iff_exists'.mp (hall 2 (by decide))
  exact ⟨e2, by simp [s3UploadFileRetry, maxS3UploadRetries, s3RetryAux, h0, h1, h2]⟩

/-- C7. The per-file upload retry policy of `S3Storage.UploadSegment`:
(a) at most `maxS3UploadRetries = 3` attempts are made, and the file is
seeked back to offset zero before every attempt (the seek count equals
the attempt count); (b) the backoff starts at 1s and doubles per retry,
capped at `maxS3Backoff = 8` seconds; (c) if attempt `k` (0-based,
`k < 3`) is the first to succeed, the loop stops successfully after
`k + 1` attempts having slept `backoffFor 0, …, backoffFor (k-1)`;
(d) if all 3 attempts fail, the file upload returns the last error after
3 attempts and 2 sleeps (1s then 2s); and (e) a file whose 3 attempts
all fail makes the whole segment upload — hence the whole commit —
return an error. -/
theorem s3UploadFile_retry_spec (outcome : Nat → Option String) :
    (s3UploadFileRetry outcome).2.1 ≤ maxS3UploadRetries ∧
    (backoffFor 0 = initialS3BackoffSec ∧ ∀ a,
      backoffFor (a + 1) = min (2 * (2 ^ a * initialS3BackoffSec)) maxS3BackoffSec) ∧
    (∀ k, k < maxS3UploadRetries → outcome k = none →
      (∀ j, j < k → outcome j ≠ none) →
      s3UploadFileRetry outcome = (none, k + 1, (List.range k).map backoffFor)) ∧
    ((∀ k, k < maxS3UploadRetries → outcome k ≠ none) →
      ∃ e, s3UploadFileRetry outcome =
        (some e, maxS3UploadRetries, [backoffFor 0, backoffFor 1])) ∧
    (∀ pres posts, (∀ k, k < maxS3UploadRetries → outcome k ≠ none) →
      ∃ e, s3UploadFiles (pres ++ outcome :: posts) = .error e) := by
  refine ⟨s3RetryAux_seeks_le outcome 0 maxS3UploadRetries none,
    ⟨by decide, fun a => by unfold backoffFor; congr 1; ring⟩,
    ?_, s3UploadFileRetry_all_fail outcome, ?_⟩
  · intro k hk hsucc hprev
    have hk3 : k < 3 := hk
    interval_cases k
    · simp [s3UploadFileRetry, maxS3UploadRetries, s3RetryAux, hsucc]
    · obtain ⟨e0, h0⟩ := Option.ne_none_iff_exists'.mp (hprev 0 (by decide))
      simp [s3UploadFileRetry, maxS3UploadRetries, s3RetryAux, h0, hsucc,
        List.range_succ]
    · obtain ⟨e0, h0⟩ := Option.ne_none_iff_exists'.mp (hprev 0 (by decide))
      obtain ⟨e1, h1⟩ := Option.ne_none_iff_exists'.mp (hprev 1 (by decide))
      simp [s3UploadFileRetry, maxS3UploadRetries, s3RetryAux, h0, h1, hsucc,
        List.range_succ]
  · intro pres posts hall
    induction pres with
    | nil =>
      obtain ⟨e, he⟩ := s3UploadFileRetry_all_fail outcome hall
      refine ⟨"failed to upload file to S3 after 3 attempts: " ++ e, ?_⟩
      simp [s3UploadFiles, he]
    | cons f fs ih =>
      cases hf : (s3UploadFileRetry f).1 with
      | some e =>
        exact ⟨"failed to upload file to S3 after 3 attempts: " ++ e,
          by simp [s3UploadFiles, hf]⟩
      | none =>
        obtain ⟨e, he⟩ := ih
        exact ⟨e, by simpa [s3UploadFiles, hf] using he⟩

/-- Witness for C7: attempts 0 and 1 fail transiently, attempt 2
succeeds — the operation succeeds after 3 attempts (3 seeks to offset
zero) having slept 1s then 2s, matching the retry scenario of the
spec. -/
theorem s3UploadFile_retry_spec_witness :
    s3UploadFileRetry (fun k => if k < 2 then some "transient" else none) =
      (none, 2 + 1, (List.range 2).map backoffFor) :=
  (s3UploadFile_retry_spec (fun k => if k < 2 then some "transient" else none)).2.2.1
    2 (by decide) (by decide) (by decide)

/-! ## Service configuration validation
(src/query_understanding/config/config_loader.go lines 33-102) -/

/-- Model of `SchemaField` from the config package. -/
structure SchemaField where
  name : String
  fieldType : String
  indexed : Bool
  stored : Bool
deriving DecidableEq, Repr

/-- Model of `IndexSchema` from the config package. -/
structure IndexSchema where
  name : String
  fields : List SchemaField
  options : List (String × String)
deriving DecidableEq, Repr

/-- Model of `ComputedField` from the config package. -/
structure ComputedField where
  name : String
  expression : String
  fieldType : String
deriving DecidableEq, Repr

/-- Model of `QueryPlanningPipeline` from the config package. -/
structure QueryPlanningPipeline where
  name : String
  steps : List String
  enabled : Bool
deriving DecidableEq, Repr

/-- Root `Configuration` structure. -/
structure Configuration where
  indexSchemas : List IndexSchema
  computedFields : List ComputedField
  queryPlanningPipelines : List QueryPlanningPipeline
deriving DecidableEq, Repr

/-- Inner loop of `ValidateConfiguration` over the fields of one schema
(config_loader.go lines 49-63): empty name, empty type and unsupported
type are rejected. Nothing checks for duplicate field names. -/
def validateFields (schemaName : String) : List SchemaField → Except String Unit
  | [] => .ok ()
  | f :: rest =>
    if f.name = "" then
      .error ("field name in schema " ++ schemaName ++ " cannot be empty")
    else if f.fieldType = "" then
      .error ("field " ++ f.name ++ " in schema " ++ schemaName ++ " must have a type")
    else if f.fieldType = "string" ∨ f.fieldType = "text" ∨ f.fieldType = "integer" ∨
        f.fieldType = "float" ∨ f.fieldType = "boolean" ∨ f.fieldType = "datetime" then
      validateFields schemaName rest
    else
      .error ("field " ++ f.name ++ " in schema " ++ schemaName ++
        " has an unsupported type " ++ f.fieldType)

/-- Loop of `ValidateConfiguration` over the index schemas
(config_loader.go lines 42-64). -/
def validateSchemas : List IndexSchema → Except String Unit
  | [] => .ok ()
  | s :: rest =>
    if s.name = "" then .error "index schema name cannot be empty"
    else if s.fields.length = 0 then
      .error ("index schema " ++ s.name ++ " must define at least one field")
    else
      match validateFields s.name s.fields with
      | .error e => .error e
      | .ok _ => validateSchemas rest

/-- Loop of `ValidateConfiguration` over the computed fields
(config_loader.go lines 67-84). -/
def validateComputedFields : List ComputedField → Except String Unit
  | [] => .ok ()
  | c :: rest =>
    if c.name = "" then .error "computed field name cannot be empty"
    else if c.expression = "" then
      .error ("computed field " ++ c.name ++ " must have an expression")
    else if c.fieldType = "" then
      .error ("computed field " ++ c.name ++ " must have a type")
    else if c.fieldType = "string" ∨ c.fieldType = "integer" ∨
        c.fieldType = "float" ∨ c.fieldType = "boolean" then
      validateComputedFields rest
    else
      .error ("computed field " ++ c.name ++ " has an unsupported type " ++ c.fieldType)

/-- Inner loop over the steps of one pipeline (config_loader.go
lines 94-98). -/
def validateSteps (pipelineName : String) : List String → Except String Unit
  | [] => .ok ()
  | st :: rest =>
    if st = "" then
      .error ("query planning pipeline " ++ pipelineName ++ " contains an empty step")
    else validateSteps pipelineName rest

/-- Loop of `ValidateConfiguration` over the pipelines
(config_loader.go lines 87-99). -/
def validatePipelines : List QueryPlanningPipeline → Except String Unit
  | [] => .ok ()
  | p :: rest =>
    if p.name = "" then .error "query planning pipeline name cannot be empty"
    else if p.steps.length = 0 then
      .error ("query planning pipeline " ++ p.name ++ " must define at least one step")
    else
      match validateSteps p.name p.steps with
      | .error e => .error e
      | .ok _ => validatePipelines rest

/-- Model of `ValidateConfiguration` (config_loader.go lines 33-102). The Go nil
check on the pointer argument has no counterpart here (Lean values are
never nil). `LoadConfig` calls this after unmarshalling and fails when
it fails. -/
def validateConfiguration (cfg : Configuration) : Except String Unit :=
  if cfg.indexSchemas.length = 0 then
    .error "at least one index schema must be defined"
  else
    match validateSchemas cfg.indexSchemas with
    | .error e => .error e
    | .ok _ =>
      match validateComputedFields cfg.computedFields with
      | .error e => .error e
      | .ok _ => validatePipelines cfg.queryPlanningPipelines

theorem validateSteps_ok (pn : String) (steps : List String)
    (h : validateSteps pn steps = .ok ()) : ∀ st ∈ steps, st ≠ "" := by
  induction steps with
  | nil => simp
  | cons a rest ih =>
    intro st hst
    by_cases ha : a = ""
    · rw [validateSteps, if_pos ha] at h
      exact absurd h (by simp)
    · rw [validateSteps, if_neg ha] at h
      rcases List.mem_cons.mp hst with rfl | hst
      · exact ha
      · exact ih h st hst

theorem validatePipelines_ok (ps : List QueryPlanningPipeline)
    (h : validatePipelines ps = .ok ()) :
    ∀ p ∈ ps, p.steps ≠ [] ∧ ∀ st ∈ p.steps, st ≠ "" := by
  induction ps with
  | nil => simp
  | cons p rest ih =>
    intro q hq
    by_cases hn : p.name = ""
    · rw [validatePipelines, if_pos hn] at h
      exact absurd h (by simp)
    · rw [validatePipelines, if_neg hn] at h
      by_cases hs : p.steps.length = 0
      · rw [if_pos hs] at h
        exact absurd h (by simp)
      · rw [if_neg hs] at h
        cases hv : validateSteps p.name p.steps with
        | error e => rw [hv] at h; exact absurd h (by simp)
        | ok u =>
          rw [hv] at h
          rcases List.mem_cons.mp hq with rfl | hq
          · exact ⟨fun hc => hs (by simp [hc]), validateSteps_ok _ _ (by cases u; exact hv)⟩
          · exact ih h q hq

/-- C8 (amended). `ValidateConfiguration` accepts a configuration only
when the schema list is non-empty, every pipeline has at least one step
and no step name is empty (equivalently, configurations violating one of
those spec invariants are rejected). It does **not** enforce the
remaining spec invariant — uniqueness of field names within a schema
(see the counterexample). -/
theorem validateConfiguration_necessary (cfg : Configuration)
    (h : validateConfiguration cfg = .ok ()) :
    cfg.indexSchemas ≠ [] ∧
    ∀ p ∈ cfg.queryPlanningPipelines, p.steps ≠ [] ∧ ∀ st ∈ p.steps, st ≠ "" := by
  unfold validateConfiguration at h
  by_cases hs : cfg.indexSchemas.length = 0
  · rw [if_pos hs] at h
    exact absurd h (by simp)
  · rw [if_neg hs] at h
    refine ⟨fun hc => hs (by simp [hc]), ?_⟩
    cases h1 : validateSchemas cfg.indexSchemas with
    | error e => rw [h1] at h; exact absurd h (by simp)
    | ok u =>
      rw [h1] at h
      cases h2 : validateComputedFields cfg.computedFields with
      | error e => rw [h2] at h; exact absurd h (by simp)
      | ok v =>
        rw [h2] at h
        exact validatePipelines_ok _ h

/-- Concrete configuration with two fields both named `id` in its single
schema: the spec invariant of unique field names within a schema is
violated. -/
def dupFieldConfig : Configuration where
  indexSchemas :=
    [⟨"products", [⟨"id", "integer", true, true⟩, ⟨"id", "string", true, true⟩], []⟩]
  computedFields := []
  queryPlanningPipelines := [⟨"default_pipeline", ["tokenize"], true⟩]

/-- Witness for C8 (amended): a configuration the validator accepts
indeed has a non-empty schema list and pipelines with non-empty steps. -/
theorem validateConfiguration_necessary_witness :
    dupFieldConfig.indexSchemas ≠ [] ∧
    ∀ p ∈ dupFieldConfig.queryPlanningPipelines,
      p.steps ≠ [] ∧ ∀ st ∈ p.steps, st ≠ "" :=
  validateConfiguration_necessary dupFieldConfig (by decide)

/-- Counterexample for C8 as stated: `dupFieldConfig` violates the
spec-listed invariant that field names be unique within each schema
(both fields of its schema are named `id`), yet `ValidateConfiguration`
accepts it — no code in config_loader.go lines 33-102 checks field-name
uniqueness. (The separate `IndexConfiguration.Validate` of the
query_understanding package does check duplicates for its own,
different, configuration type, but the service-configuration validator
named by the claim does not.) -/
theorem validateConfiguration_duplicate_fields_cx :
    validateConfiguration dupFieldConfig = .ok () ∧
    ¬ ((dupFieldConfig.indexSchemas.map fun s =>
        s.fields.map SchemaField.name).all fun l => l.Nodup) := by
  decide

/-! ## Query-understanding stages
(src/query_understanding/processing/stages.go) -/

/-- Model of the Go stage configuration map (string to arbitrary value) handed to every stage. Only the
stopwords stage ever reads it (key `stopwords`, a `[]string`); the
tokenize and synonym stages ignore it, so a string-list-valued
association list is a sufficient model. -/
abbrev StageConfig := List (String × List String)

/-- Go `unicode.IsSpace`: the Unicode White_Space code points
(Latin-1 part: TAB, LF, VT, FF, CR, space, NEL, NBSP; plus the
higher-plane space characters). -/
def goIsSpace (c : Char) : Bool :=
  (0x0009 ≤ c.toNat ∧ c.toNat ≤ 0x000D) ∨ c.toNat = 0x0020 ∨
  c.toNat = 0x0085 ∨ c.toNat = 0x00A0 ∨ c.toNat = 0x1680 ∨
  (0x2000 ≤ c.toNat ∧ c.toNat ≤ 0x200A) ∨ c.toNat = 0x2028 ∨
  c.toNat = 0x2029 ∨ c.toNat = 0x202F ∨ c.toNat = 0x205F ∨ c.toNat = 0x3000

/-- Go `strings.Fields`: split around every maximal run of white space,
dropping the separators; only non-empty tokens are produced. -/
def goFields : List Char → List (List Char)
  | [] => []
  | c :: cs =>
    if goIsSpace c then goFields cs
    else (c :: cs.takeWhile (fun x => !goIsSpace x)) ::
      goFields (cs.dropWhile (fun x => !goIsSpace x))
termination_by s => s.length
decreasing_by
  · simp
  · simpa using Nat.lt_succ_of_le (List.dropWhile_sublist _).length_le

/-- Go `strings.Join(tokens, " ")`. -/
def joinSp : List (List Char) → List Char
  | [] => []
  | [t] => t
  | t :: t2 :: ts => t ++ ' ' :: joinSp (t2 :: ts)

/-- Model of `TokenizeStage.Process` (stages.go lines 21-28): on the empty query
return the empty string; otherwise return the whitespace-separated
fields joined by single spaces. Never errors. -/
def tokenizeProcess (query : String) (_config : StageConfig) :
    Except String String :=
  if query = "" then .ok ""
  else .ok (String.mk (joinSp (goFields query.data)))

/-! ### Tokenize stage: totality and idempotence (C10) -/

theorem goFields_mem_ne_nil (s : List Char) (t : List Char)
    (ht : t ∈ goFields s) : t ≠ [] := by
  induction s using goFields.induct with
  | case1 => simp [goFields] at ht
  | case2 c cs h ih =>
    rw [goFields, if_pos h] at ht
    exact ih ht
  | case3 c cs h ih =>
    rw [goFields, if_neg h] at ht
    rcases List.mem_cons.mp ht with rfl | ht
    · simp
    · exact ih ht

theorem goFields_mem_nospace (s : List Char) (t : List Char)
    (ht : t ∈ goFields s) : ∀ c ∈ t, goIsSpace c = false := by
  induction s using goFields.induct with
  | case1 => simp [goFields] at ht
  | case2 c cs h ih =>
    rw [goFields, if_pos h] at ht
    exact ih ht
  | case3 c cs h ih =>
    rw [goFields, if_neg h] at ht
    rcases List.mem_cons.mp ht with rfl | ht
    · intro x hx
      rcases List.mem_cons.mp hx with rfl | hx
      · exact Bool.of_not_eq_true h
      · exact List.mem_takeWhile_imp hx |> fun hx' => by simpa using hx'
    · exact ih ht

theorem takeWhile_append_space (t s : List Char)
    (ht : ∀ c ∈ t, goIsSpace c = false) :
    (t ++ ' ' :: s).takeWhile (fun x => !goIsSpace x) = t ∧
    (t ++ ' ' :: s).dropWhile (fun x => !goIsSpace x) = ' ' :: s := by
  induction t with
  | nil =>
    constructor
    · rw [List.nil_append, List.takeWhile_cons]
      simp [goIsSpace]
    · rw [List.nil_append, List.dropWhile_cons]
      simp [goIsSpace]
  | cons c t ih =>
    have hc : goIsSpace c = false := ht c (List.mem_cons_self _ _)
    have iht := ih fun x hx => ht x (List.mem_cons_of_mem _ hx)
    constructor
    · rw [List.cons_append, List.takeWhile_cons]
      simp [hc, iht.1]
    · rw [List.cons_append, List.dropWhile_cons]
      simp [hc, iht.2]

theorem takeWhile_all_nospace (t : List Char)
    (ht : ∀ c ∈ t, goIsSpace c = false) :
    t.takeWhile (fun x => !goIsSpace x) = t ∧
    t.dropWhile (fun x => !goIsSpace x) = [] := by
  induction t with
  | nil => simp
  | cons c t ih =>
    have hc : goIsSpace c = false := ht c (List.mem_cons_self _ _)
    have iht := ih fun x hx => ht x (List.mem_cons_of_mem _ hx)
    constructor
    · rw [List.takeWhile_cons]
      simp [hc, iht.1]
    · rw [List.dropWhile_cons]
      simp [hc, iht.2]

theorem goFields_single_token (t : List Char) (hne : t ≠ [])
    (ht : ∀ c ∈ t, goIsSpace c = false) : goFields t = [t] := by
  cases t with
  | nil => exact absurd rfl hne
  | cons c cs =>
    have hc : goIsSpace c = false := ht c (List.mem_cons_self _ _)
    have h2 := takeWhile_all_nospace cs fun x hx => ht x (List.mem_cons_of_mem _ hx)
    rw [goFields, if_neg (by simp [hc]), h2.1, h2.2]
    simp [goFields]

theorem goFields_token_space (t s : List Char) (hne : t ≠ [])
    (ht : ∀ c ∈ t, goIsSpace c = false) :
    goFields (t ++ ' ' :: s) = t :: goFields s := by
  cases t with
  | nil => exact absurd rfl hne
  | cons c cs =>
    have hc : goIsSpace c = false := ht c (List.mem_cons_self _ _)
    have h2 := takeWhile_append_space cs s fun x hx => ht x (List.mem_cons_of_mem _ hx)
    rw [List.cons_append, goFields, if_neg (by simp [hc]), h2.1, h2.2]
    have hsp : goIsSpace ' ' = true := by decide
    rw [goFields, if_pos hsp]

theorem goFields_joinSp (ts : List (List Char))
    (h : ∀ t ∈ ts, t ≠ [] ∧ ∀ c ∈ t, goIsSpace c = false) :
    goFields (joinSp ts) = ts := by
  induction ts with
  | nil => simp [joinSp, goFields]
  | cons t rest ih =>
    cases rest with
    | nil =>
      have := h t (List.mem_cons_self _ _)
      exact goFields_single_token t this.1 this.2
    | cons t2 rest2 =>
      have ht := h t (List.mem_cons_self _ _)
      rw [joinSp, goFields_token_space t _ ht.1 ht.2,
        ih fun x hx => h x (List.mem_cons_of_mem _ hx)]

/-- C10. `TokenizeStage.Process` is total and idempotent: for every
input string and every stage configuration it returns, without error,
the whitespace-separated tokens of the input joined by single spaces
(the empty input yields the empty string), and applying the stage to its
own output returns the output unchanged. -/
theorem tokenizeProcess_total_idempotent (q : String) (cfg cfg2 : StageConfig) :
    tokenizeProcess q cfg = .ok (String.mk (joinSp (goFields q.data))) ∧
    tokenizeProcess "" cfg = .ok "" ∧
    tokenizeProcess (String.mk (joinSp (goFields q.data))) cfg2 =
      .ok (String.mk (joinSp (goFields q.data))) := by
  have hmk : ∀ l : List Char, (String.mk l).data = l := fun l => rfl
  have hjoin : goFields (joinSp (goFields q.data)) = goFields q.data :=
    goFields_joinSp (goFields q.data) fun t ht =>
      ⟨goFields_mem_ne_nil _ t ht, goFields_mem_nospace _ t ht⟩
  refine ⟨?_, rfl, ?_⟩
  · by_cases hq : q = ""
    · subst hq
      rw [tokenizeProcess, if_pos rfl]
      have h0 : goFields (("" : String).data) = [] := by
        have hd : ("" : String).data = [] := rfl
        rw [hd]
        simp [goFields]
      rw [h0]
      have h1 : String.mk (joinSp []) = "" := by decide
      rw [h1]
    · rw [tokenizeProcess, if_neg hq]
  · by_cases hout : String.mk (joinSp (goFields q.data)) = ""
    · rw [tokenizeProcess, if_pos hout, hout]
    · rw [tokenizeProcess, if_neg hout, hmk, hjoin]

/-! ### Synonym-expansion stage (C9) -/

/-- Go `strings.Contains(s, sub)`: some suffix of `s` starts with
`sub`. -/
def goContains (s sub : List Char) : Bool :=
  sub.isPrefixOf s ||
    match s with
    | [] => false
    | _ :: rest => goContains rest sub

/-- Fueled worker for `strings.ReplaceAll`: replace non-overlapping
occurrences of `old` left to right (the fuel, instantiated with the
length of the scanned list, bounds the recursion; it never runs out on
the call pattern used, where `old` is the non-empty literal `pc`). -/
def replaceAllAux (old new : List Char) : Nat → List Char → List Char
  | 0, s => s
  | _ + 1, [] => []
  | fuel + 1, c :: rest =>
    if old.isPrefixOf (c :: rest) ∧ old ≠ [] then
      new ++ replaceAllAux old new fuel (List.drop old.length (c :: rest))
    else c :: replaceAllAux old new fuel rest

/-- Go `strings.ReplaceAll(s, old, new)` for non-empty `old`. -/
def goReplaceAll (s old new : List Char) : List Char :=
  replaceAllAux old new s.length s

/-- Model of `SynonymExpansionStage.Process` (stages.go lines 76-83): when the
query contains `pc`, replace every occurrence of `pc` by
`pc personal computer`; never errors. -/
def synonymExpansionProcess (query : String) (_config : StageConfig) :
    Except String String :=
  if goContains query.data ("pc".data) then
    .ok (String.mk (goReplaceAll query.data ("pc".data)
      (("pc personal computer").data)))
  else
    .ok query

/-- C9. The synonym_expansion stage is **not** idempotent, although its
own documentation says it returns the query as-is and the spec requires
idempotence on already-expanded input: on query `pc` one application
yields `pc personal computer`, but applying the stage to that output
replaces the leading `pc` again, producing
`pc personal computer personal computer`. Evaluated at the failing
input, `Process (Process "pc") ≠ Process "pc"`. -/
theorem synonymExpansion_not_idempotent_at_pc :
    synonymExpansionProcess "pc" [] = .ok "pc personal computer" ∧
    synonymExpansionProcess "pc personal computer" [] =
      .ok "pc personal computer personal computer" ∧
    ("pc personal computer personal computer" : String) ≠
      "pc personal computer" := by
  decide

end SearchEngine
